import Mathlib

/-!
Verification of the ABAC policy-sync engine and the permalink model of
this repository. The permalink definitions are embedded from
`src/model/permalink.go`; the policy engine itself ships no source in this
tree (only its end-to-end tests), so its definitions are modelled from the
specification, as marked on each definition.
-/

namespace Abac

/-- Modelled from the spec: an attribute value is absent, a scalar string,
or a set of strings (spec section 3, AttributeSet; section 9, tagged union). -/
inductive Value where
  | absent
  | scalar (s : String)
  | strSet (ss : List String)
deriving DecidableEq

/-- Modelled from the spec: an AttributeSet maps attribute names to values,
scoped to one user. -/
abbrev AttributeSet := List (String × Value)

/-- Modelled from the spec: look an attribute up by name; a name with no
entry is absent. -/
def getAttr (attrs : AttributeSet) (name : String) : Value :=
  match attrs.find? (fun kv => kv.1 == name) with
  | some kv => kv.2
  | none => .absent

/-- Modelled from the spec: the compiled boolean expression of a policy
(spec section 4.1): equality, inequality, set membership and its negation,
an explicit is-not-set predicate, and the boolean combinators. -/
inductive Expr where
  | eq (attr : String) (v : String)
  | ne (attr : String) (v : String)
  | isIn (attr : String) (vs : List String)
  | notIn (attr : String) (vs : List String)
  | isNotSet (attr : String)
  | and (a b : Expr)
  | or (a b : Expr)
  | not (a : Expr)
deriving DecidableEq

/-- Modelled from the spec: `evaluate(expression, attributeSet) -> bool`,
pure and total; a comparison against an absent attribute is false, the
explicit is-not-set predicate on an absent attribute is true. -/
def evaluate : Expr → AttributeSet → Bool
  | .eq a v, attrs =>
      match getAttr attrs a with
      | .scalar s => s == v
      | _ => false
  | .ne a v, attrs =>
      match getAttr attrs a with
      | .scalar s => s != v
      | _ => false
  | .isIn a vs, attrs =>
      match getAttr attrs a with
      | .scalar s => vs.contains s
      | _ => false
  | .notIn a vs, attrs =>
      match getAttr attrs a with
      | .scalar s => !vs.contains s
      | _ => false
  | .isNotSet a, attrs => getAttr attrs a == .absent
  | .and x y, attrs => evaluate x attrs && evaluate y attrs
  | .or x y, attrs => evaluate x attrs || evaluate y attrs
  | .not x, attrs => !evaluate x attrs

abbrev UserId := Nat

/-- Modelled from the spec: the external AttributeProvider returns a user's
attribute set or an error (`getAttributes(userId) -> AttributeSet | error`). -/
abbrev Provider := UserId → Except String AttributeSet

/-- Modelled from the spec: one user's verdict under a compiled expression;
a provider failure counts as not satisfying. -/
def evalUser (e : Expr) (provider : Provider) (u : UserId) : Bool :=
  match provider u with
  | .ok attrs => evaluate e attrs
  | .error _ => false

/-- Whether the provider fails for a user. -/
def providerFails (provider : Provider) (u : UserId) : Bool :=
  match provider u with
  | .ok _ => false
  | .error _ => true

/-- Result of `resolve`: the satisfying users and the users whose attribute
lookup failed (recorded, per-user isolated). -/
structure ResolveResult where
  satisfying : List UserId
  failures : List UserId
deriving DecidableEq

/-- Modelled from the spec: `resolve(policy, userPopulation)` returns the
subset of the population satisfying the compiled expression; a provider
failure for one user excludes that user and records the failure without
aborting the rest (spec section 4.2). -/
def resolve (e : Expr) (provider : Provider) : List UserId → ResolveResult
  | [] => ⟨[], []⟩
  | u :: rest =>
      let r := resolve e provider rest
      match provider u with
      | .ok attrs =>
          if evaluate e attrs then ⟨u :: r.satisfying, r.failures⟩
          else ⟨r.satisfying, r.failures⟩
      | .error _ => ⟨r.satisfying, u :: r.failures⟩

/-- Modelled from the spec: the origin tag of a membership record, either
`manual` or `policy` together with the id of the policy the record is
attributed to (spec section 3, MembershipRecord; section 6,
`listMembers -> set of (userId, origin, policyId?)`). -/
inductive Origin where
  | manual
  | policy (pid : Nat)
deriving DecidableEq

/-- Modelled from the spec: one membership record, tying a user to a
collection with its origin tag. -/
structure MembershipRecord where
  user : UserId
  coll : Nat
  origin : Origin
deriving DecidableEq

/-- The membership store: all membership records across collections. -/
abbrev Store := List MembershipRecord

/-- Modelled from the spec: a policy with immutable id, compiled
expression, target collections, the autoSync flag and the active flag
(spec section 3, Policy). -/
structure Policy where
  pid : Nat
  expr : Expr
  targets : List Nat
  autoSync : Bool
  active : Bool
deriving DecidableEq

/-- The records of one collection inside the store. -/
def membersOf (store : Store) (c : Nat) : List MembershipRecord :=
  store.filter (fun r => r.coll == c)

/-- Whether a user is a member of a collection via any origin. -/
def isMember (store : Store) (c : Nat) (u : UserId) : Bool :=
  store.any (fun r => r.coll == c && r.user == u)

/-- Modelled from the spec: whether a user separately satisfies some other
active policy targeting the same collection (the last clause of the
`toRemove` rule, spec section 4.3). -/
def satOther (policies : List Policy) (provider : Provider) (p : Policy)
    (c : Nat) (u : UserId) : Bool :=
  policies.any (fun q =>
    q.pid != p.pid && q.active && q.targets.contains c && evalUser q.expr provider u)

/-- Modelled from the spec: a record is removable for policy `p` exactly
when its origin is `policy`, it is attributed solely to `p`, its user is
not in `p`'s satisfying set and does not satisfy any other active policy
targeting the collection; `manual` records are never removable. -/
def removePred (p : Policy) (sat : List UserId) (other : UserId → Bool)
    (r : MembershipRecord) : Bool :=
  match r.origin with
  | .manual => false
  | .policy pid => pid == p.pid && !sat.contains r.user && !other r.user

/-- The delta computed by one reconciliation. -/
structure ReconcileResult where
  toAdd : List UserId
  toRemove : List MembershipRecord
deriving DecidableEq

/-- Modelled from the spec: `reconcile(policy, collection, satisfyingSet,
currentMembership)`; `toAdd` is the satisfying set minus the current
members of any origin, `toRemove` the members matching `removePred`
(spec section 4.3). -/
def reconcile (p : Policy) (sat : List UserId) (members : List MembershipRecord)
    (other : UserId → Bool) : ReconcileResult :=
  { toAdd := sat.filter (fun u => !members.any (fun r => r.user == u))
  , toRemove := members.filter (removePred p sat other) }

/-- One reconciliation pass: the computed delta and the resulting store. -/
structure PassResult where
  result : ReconcileResult
  store : Store
deriving DecidableEq

/-- A record survives the apply step of a pass for policy `p` on collection
`c` unless it belongs to `c` and is removable. -/
def keepPred (p : Policy) (sat : List UserId) (other : UserId → Bool) (c : Nat)
    (r : MembershipRecord) : Bool :=
  !(r.coll == c && removePred p sat other r)

/-- The satisfying set of a policy over a population, as the sync pipeline
computes it. -/
def satList (provider : Provider) (population : List UserId) (p : Policy) : List UserId :=
  (resolve p.expr provider population).satisfying

/-- Modelled from the spec: one reconciliation pass of policy `p` against
collection `c`. The delta is always computed (it feeds reporting and the
AccessTester); it is applied to the store only when `p.autoSync` is true —
removals drop exactly the removable records of `c`, additions append
records attributed to `p` (spec sections 4.3 and 4.4). -/
def doPass (policies : List Policy) (provider : Provider) (population : List UserId)
    (p : Policy) (c : Nat) (store : Store) : PassResult :=
  let sat := satList provider population p
  let other := satOther policies provider p c
  let res := reconcile p sat (membersOf store c) other
  if p.autoSync then
    { result := res
    , store := store.filter (keepPred p sat other c)
        ++ res.toAdd.map (fun u => MembershipRecord.mk u c (.policy p.pid)) }
  else
    { result := res, store := store }

/-- One line of a SyncRun record: per policy+collection counts of
additions and removals. -/
structure SyncItem where
  pid : Nat
  coll : Nat
  added : Nat
  removed : Nat
deriving DecidableEq

/-- Modelled from the spec: the policy+collection pairs a sync run
processes — every target collection of every active, autoSync policy. -/
def syncPairs (policies : List Policy) : List (Policy × Nat) :=
  (policies.filter (fun p => p.active && p.autoSync)).flatMap
    (fun p => p.targets.map (fun c => (p, c)))

/-- Runs the reconciliation passes for a list of policy+collection pairs in
order, threading the store and collecting per-pair counts. -/
def runPairs (policies : List Policy) (provider : Provider) (population : List UserId) :
    List (Policy × Nat) → Store → Store × List SyncItem
  | [], store => (store, [])
  | (p, c) :: rest, store =>
      let pr := doPass policies provider population p c store
      let next := runPairs policies provider population rest pr.store
      (next.1, SyncItem.mk p.pid c pr.result.toAdd.length pr.result.toRemove.length :: next.2)

/-- Modelled from the spec: `runSync` resolves and reconciles every target
collection of every active autoSync policy and aggregates the per-pair
counts into one SyncRun (spec section 4.4). -/
def runSync (policies : List Policy) (provider : Provider) (population : List UserId)
    (store : Store) : Store × List SyncItem :=
  runPairs policies provider population (syncPairs policies) store

/-- The per-pair stability predicate: every user of the policy's satisfying
set is a member of the collection, and no record of the collection is
removable for the policy. A pass on a stable store is a no-op. -/
def Stable (p : Policy) (c : Nat) (sat : List UserId) (other : UserId → Bool)
    (store : Store) : Prop :=
  (∀ u ∈ sat, isMember store c u = true) ∧
  (∀ r ∈ store, r.coll = c → removePred p sat other r = false)

/-- Well-formedness of a pass list: every pair names an active, autoSync
policy of the policy list, aimed at one of its own target collections.
`syncPairs` produces only such pairs. -/
def pairsWF (policies : List Policy) (pairs : List (Policy × Nat)) : Prop :=
  ∀ pc ∈ pairs, pc.1 ∈ policies ∧ pc.1.active = true ∧ pc.1.autoSync = true ∧
    pc.2 ∈ pc.1.targets

end Abac

namespace Model

/-- The fields of `model.Post` that `permalink.go` reads (`Id`, `CreateAt`,
`UpdateAt`, `ChannelId`, `Message`), plus `UserId` and Go field `Type`
(embedded as `PostType`, since `Type` is reserved in Lean), which other
revisions of the file read; `Post` itself is defined elsewhere in the
repository. Go `int64` timestamps are embedded as `Int`. -/
structure Post where
  Id : String
  CreateAt : Int
  UpdateAt : Int
  ChannelId : String
  UserId : String
  Message : String
  PostType : String
deriving DecidableEq

/-- `model.PreviewPost` of `src/model/permalink.go`. -/
structure PreviewPost where
  Id : String
  CreateAt : Int
  UpdateAt : Int
  ChannelId : String
  Message : String
deriving DecidableEq

/-- `model.Permalink` of `src/model/permalink.go`: a nilable pointer to a
`PreviewPost`, embedded as an `Option`. -/
structure Permalink where
  previewPost : Option PreviewPost
deriving DecidableEq

/-- `PreviewPostFromPost` of `src/model/permalink.go`: builds a
`PreviewPost` by copying the five fields of the post. -/
def PreviewPostFromPost (post : Post) : PreviewPost :=
  { Id := post.Id
  , CreateAt := post.CreateAt
  , UpdateAt := post.UpdateAt
  , ChannelId := post.ChannelId
  , Message := post.Message }

/-- Go string escaping for the JSON encoder, restricted to the characters
`encoding/json` always escapes in these fields. -/
def escapeChar (c : Char) : String :=
  if c = '"' then "\\\""
  else if c = '\\' then "\\\\"
  else String.singleton c

/-- Escape a whole string for JSON output. -/
def escapeString (s : String) : String :=
  String.join (s.data.map escapeChar)

/-- A JSON string literal. -/
def quoteJson (s : String) : String :=
  "\"" ++ escapeString s ++ "\""

/-- The JSON object `encoding/json` produces for a `PreviewPost`, following
the struct tags of `src/model/permalink.go`. -/
def previewPostJson (pp : PreviewPost) : String :=
  "\x7b\"id\":" ++ quoteJson pp.Id ++
  ",\"create_at\":" ++ toString pp.CreateAt ++
  ",\"update_at\":" ++ toString pp.UpdateAt ++
  ",\"channel_id\":" ++ quoteJson pp.ChannelId ++
  ",\"message\":" ++ quoteJson pp.Message ++ "\x7d"

/-- The JSON object `encoding/json` produces for a `Permalink`; a nil
`PreviewPost` pointer marshals to `null`. -/
def permalinkJson (o : Permalink) : String :=
  "\x7b\"preview_post\":" ++
  (match o.previewPost with
   | some pp => previewPostJson pp
   | none => "null") ++ "\x7d"

/-- `json.Marshal` applied to a `Permalink`: marshalling this type cannot
fail, so the result is always `ok`; the `Except` shape mirrors the Go
`([]byte, error)` return. -/
def jsonMarshal (o : Permalink) : Except String String :=
  .ok (permalinkJson o)

/-- `string(b)` where `b, _ := json.Marshal(...)`: the error is discarded;
on an error `b` is nil and the conversion yields the empty string. -/
def stringOfMarshal (m : Except String String) : String :=
  match m with
  | .ok b => b
  | .error _ => ""

/-- `Permalink.ToJson` of `src/model/permalink.go`. -/
def ToJson (o : Permalink) : String :=
  stringOfMarshal (jsonMarshal o)

/-- C9: for every Post `p`, `PreviewPostFromPost p` is a pure projection:
its `Id`, `CreateAt`, `UpdateAt`, `ChannelId` and `Message` fields equal
the corresponding fields of `p`, and the whole result is determined by
exactly those five fields of `p`. -/
theorem previewPostFromPost_is_projection (post : Post) :
    PreviewPostFromPost post =
      ⟨post.Id, post.CreateAt, post.UpdateAt, post.ChannelId, post.Message⟩ ∧
    (PreviewPostFromPost post).Id = post.Id ∧
    (PreviewPostFromPost post).CreateAt = post.CreateAt ∧
    (PreviewPostFromPost post).UpdateAt = post.UpdateAt ∧
    (PreviewPostFromPost post).ChannelId = post.ChannelId ∧
    (PreviewPostFromPost post).Message = post.Message :=
  ⟨rfl, rfl, rfl, rfl, rfl, rfl⟩

/-- C10: `Permalink.ToJson` is total and never reports failure: every
`Permalink`, the nil-pointer one included, yields the marshalled string,
and a marshalling error would be silently discarded, leaving the empty
string rather than an error. -/
theorem toJson_total_never_fails :
    (∀ o : Permalink, ToJson o = permalinkJson o) ∧
    ToJson ⟨none⟩ = "\x7b\"preview_post\":null\x7d" ∧
    (∀ m : Except String String, ∀ e : String, m = .error e → stringOfMarshal m = "") := by
  refine ⟨fun o => rfl, rfl, ?_⟩
  intro m e hm
  subst hm
  rfl

/-- Witness for C10: concrete evaluation of the nil-pointer case and of the
error-discarding branch. -/
theorem toJson_total_never_fails_witness :
    ToJson ⟨none⟩ = "\x7b\"preview_post\":null\x7d" ∧
    stringOfMarshal (.error "marshal failed") = "" :=
  ⟨toJson_total_never_fails.2.1,
   toJson_total_never_fails.2.2 (.error "marshal failed") "marshal failed" rfl⟩

end Model

namespace Abac

/-- `resolve` splits the population into the users the evaluator accepts
and the users whose provider lookup failed. -/
theorem resolve_eq (e : Expr) (provider : Provider) (pop : List UserId) :
    resolve e provider pop =
      ⟨pop.filter (evalUser e provider), pop.filter (providerFails provider)⟩ := by
  induction pop with
  | nil => rfl
  | cons u rest ih =>
      simp only [resolve, ih, List.filter_cons]
      cases hp : provider u with
      | ok attrs =>
          cases he : evaluate e attrs <;>
            simp [evalUser, providerFails, hp, he]
      | error msg =>
          simp [evalUser, providerFails, hp]

/-- A user in the satisfying set of `resolve` evaluates to true. -/
theorem evalUser_of_mem_satisfying (e : Expr) (provider : Provider)
    (pop : List UserId) (u : UserId)
    (h : u ∈ (resolve e provider pop).satisfying) : evalUser e provider u = true := by
  rw [resolve_eq] at h
  exact (List.mem_filter.mp h).2

/-- C6: `evaluate` is total — it returns one of the two booleans for every
expression and attribute set — and on an absent attribute every comparison
form is false while the explicit is-not-set predicate is true. -/
theorem evaluate_total_and_absent_semantics (a v : String) (vs : List String)
    (attrs : AttributeSet) (h : getAttr attrs a = .absent) :
    (∀ e : Expr, evaluate e attrs = true ∨ evaluate e attrs = false) ∧
    evaluate (.eq a v) attrs = false ∧
    evaluate (.ne a v) attrs = false ∧
    evaluate (.isIn a vs) attrs = false ∧
    evaluate (.notIn a vs) attrs = false ∧
    evaluate (.isNotSet a) attrs = true := by
  refine ⟨fun e => ?_, ?_, ?_, ?_, ?_, ?_⟩
  · cases evaluate e attrs
    · exact Or.inr rfl
    · exact Or.inl rfl
  all_goals simp [evaluate, h]

/-- Witness for C6: the `Dept` attribute is absent from an attribute set
naming only `Office`, and the absent-attribute semantics hold there. -/
theorem evaluate_absent_witness :
    getAttr [("Office", Value.scalar "Remote")] "Dept" = .absent ∧
    ((∀ e : Expr, evaluate e [("Office", Value.scalar "Remote")] = true ∨
        evaluate e [("Office", Value.scalar "Remote")] = false) ∧
     evaluate (.eq "Dept" "Engineering") [("Office", Value.scalar "Remote")] = false ∧
     evaluate (.ne "Dept" "Engineering") [("Office", Value.scalar "Remote")] = false ∧
     evaluate (.isIn "Dept" ["Sales"]) [("Office", Value.scalar "Remote")] = false ∧
     evaluate (.notIn "Dept" ["Sales"]) [("Office", Value.scalar "Remote")] = false ∧
     evaluate (.isNotSet "Dept") [("Office", Value.scalar "Remote")] = true) :=
  ⟨rfl, evaluate_total_and_absent_semantics "Dept" "Engineering" ["Sales"] _ rfl⟩

/-- C7: a provider failure for one user excludes exactly that user from the
satisfying set, records the failure, and leaves the satisfying set the
correct subset of the rest of the population. -/
theorem resolve_isolates_provider_failures (e : Expr) (provider : Provider)
    (pop : List UserId) (u : UserId) (msg : String)
    (hu : u ∈ pop) (herr : provider u = .error msg) :
    u ∉ (resolve e provider pop).satisfying ∧
    u ∈ (resolve e provider pop).failures ∧
    (resolve e provider pop).satisfying = pop.filter (evalUser e provider) ∧
    (∀ w ∈ pop, providerFails provider w = false →
      (w ∈ (resolve e provider pop).satisfying ↔ evalUser e provider w = true)) := by
  rw [resolve_eq]
  refine ⟨?_, ?_, rfl, ?_⟩
  · intro hmem
    have := (List.mem_filter.mp hmem).2
    simp [evalUser, herr] at this
  · exact List.mem_filter.mpr ⟨hu, by simp [providerFails, herr]⟩
  · intro w hw _
    simp [List.mem_filter, hw]

/-- Witness for C7: the provider fails for user 2 inside the population
`[1, 2, 3]`; user 2 lands in the failures, not in the satisfying set. -/
theorem resolve_isolation_witness :
    ((2 : UserId) ∈ ([1, 2, 3] : List UserId) ∧
      (fun u : UserId => if u == 2 then (.error "lookup timeout" : Except String AttributeSet)
        else .ok [("Dept", Value.scalar "Engineering")]) 2 = .error "lookup timeout") ∧
    ((2 : UserId) ∉ (resolve (.eq "Dept" "Engineering")
        (fun u : UserId => if u == 2 then .error "lookup timeout"
          else .ok [("Dept", Value.scalar "Engineering")]) [1, 2, 3]).satisfying ∧
     (2 : UserId) ∈ (resolve (.eq "Dept" "Engineering")
        (fun u : UserId => if u == 2 then .error "lookup timeout"
          else .ok [("Dept", Value.scalar "Engineering")]) [1, 2, 3]).failures ∧
     (resolve (.eq "Dept" "Engineering")
        (fun u : UserId => if u == 2 then .error "lookup timeout"
          else .ok [("Dept", Value.scalar "Engineering")]) [1, 2, 3]).satisfying =
       ([1, 2, 3] : List UserId).filter (evalUser (.eq "Dept" "Engineering")
        (fun u : UserId => if u == 2 then .error "lookup timeout"
          else .ok [("Dept", Value.scalar "Engineering")])) ∧
     (∀ w ∈ ([1, 2, 3] : List UserId),
        providerFails (fun u : UserId => if u == 2 then .error "lookup timeout"
          else .ok [("Dept", Value.scalar "Engineering")]) w = false →
        (w ∈ (resolve (.eq "Dept" "Engineering")
            (fun u : UserId => if u == 2 then .error "lookup timeout"
              else .ok [("Dept", Value.scalar "Engineering")]) [1, 2, 3]).satisfying ↔
          evalUser (.eq "Dept" "Engineering")
            (fun u : UserId => if u == 2 then .error "lookup timeout"
              else .ok [("Dept", Value.scalar "Engineering")]) w = true))) :=
  ⟨⟨by decide, rfl⟩,
   resolve_isolates_provider_failures _ _ _ 2 "lookup timeout" (by decide) rfl⟩

/-- C1: when `autoSync` is false a pass computes the reconciliation delta
for reporting but applies no mutation — the membership store after the
pass is exactly the store before it. -/
theorem autoSync_false_no_mutation (policies : List Policy) (provider : Provider)
    (population : List UserId) (p : Policy) (c : Nat) (store : Store)
    (h : p.autoSync = false) :
    (doPass policies provider population p c store).store = store ∧
    (doPass policies provider population p c store).result =
      reconcile p (satList provider population p) (membersOf store c)
        (satOther policies provider p c) := by
  simp [doPass, h]

/-- Witness for C1: the spec scenario — policy `Dept == "Engineering"`
with autoSync off, user 1 (Engineering) not yet a member of collection 7;
the computed `toAdd` is `[1]` yet the store stays empty. -/
theorem autoSync_false_no_mutation_witness :
    (Policy.mk 1 (.eq "Dept" "Engineering") [7] false true).autoSync = false ∧
    ((doPass [Policy.mk 1 (.eq "Dept" "Engineering") [7] false true]
        (fun u : UserId => if u == 1 then .ok [("Dept", Value.scalar "Engineering")]
          else .ok [("Dept", Value.scalar "Sales")]) [1, 2]
        (Policy.mk 1 (.eq "Dept" "Engineering") [7] false true) 7 []).store = [] ∧
     (doPass [Policy.mk 1 (.eq "Dept" "Engineering") [7] false true]
        (fun u : UserId => if u == 1 then .ok [("Dept", Value.scalar "Engineering")]
          else .ok [("Dept", Value.scalar "Sales")]) [1, 2]
        (Policy.mk 1 (.eq "Dept" "Engineering") [7] false true) 7 []).result =
       reconcile (Policy.mk 1 (.eq "Dept" "Engineering") [7] false true)
         (satList (fun u : UserId => if u == 1 then .ok [("Dept", Value.scalar "Engineering")]
            else .ok [("Dept", Value.scalar "Sales")]) [1, 2]
           (Policy.mk 1 (.eq "Dept" "Engineering") [7] false true))
         (membersOf [] 7)
         (satOther [Policy.mk 1 (.eq "Dept" "Engineering") [7] false true]
           (fun u : UserId => if u == 1 then .ok [("Dept", Value.scalar "Engineering")]
             else .ok [("Dept", Value.scalar "Sales")])
           (Policy.mk 1 (.eq "Dept" "Engineering") [7] false true) 7)) ∧
    (doPass [Policy.mk 1 (.eq "Dept" "Engineering") [7] false true]
        (fun u : UserId => if u == 1 then .ok [("Dept", Value.scalar "Engineering")]
          else .ok [("Dept", Value.scalar "Sales")]) [1, 2]
        (Policy.mk 1 (.eq "Dept" "Engineering") [7] false true) 7 []).result.toAdd = [1] :=
  ⟨rfl,
   autoSync_false_no_mutation _ _ _ _ 7 [] rfl,
   by decide⟩

/-- C4: a membership record of origin `manual` is never in the computed
`toRemove` set and survives the apply step of every pass. -/
theorem manual_membership_never_removed (policies : List Policy) (provider : Provider)
    (population : List UserId) (p : Policy) (c : Nat) (sat : List UserId)
    (members : List MembershipRecord) (other : UserId → Bool) (store : Store)
    (r : MembershipRecord) (hm : r.origin = .manual) :
    r ∉ (reconcile p sat members other).toRemove ∧
    (r ∈ store → r ∈ (doPass policies provider population p c store).store) := by
  constructor
  · intro hmem
    have h2 := (List.mem_filter.mp hmem).2
    simp [removePred, hm] at h2
  · intro hr
    by_cases hs : p.autoSync = true
    · simp only [doPass, if_pos hs]
      refine List.mem_append_left _ (List.mem_filter.mpr ⟨hr, ?_⟩)
      simp [keepPred, removePred, hm]
    · simp [doPass, hs, hr]

/-- Witness for C4: a manual record of user 5 in collection 7, with an
empty satisfying set and autoSync on, is neither in `toRemove` nor dropped
from the store. -/
theorem manual_membership_never_removed_witness :
    (MembershipRecord.mk 5 7 .manual).origin = .manual ∧
    ((MembershipRecord.mk 5 7 .manual) ∉
        (reconcile (Policy.mk 1 (.eq "Dept" "Engineering") [7] true true) []
          [MembershipRecord.mk 5 7 .manual] (fun _ => false)).toRemove ∧
     ((MembershipRecord.mk 5 7 .manual) ∈ ([MembershipRecord.mk 5 7 .manual] : Store) →
       (MembershipRecord.mk 5 7 .manual) ∈
         (doPass [Policy.mk 1 (.eq "Dept" "Engineering") [7] true true]
           (fun _ => .ok []) [5]
           (Policy.mk 1 (.eq "Dept" "Engineering") [7] true true) 7
           [MembershipRecord.mk 5 7 .manual]).store)) :=
  ⟨rfl,
   manual_membership_never_removed _ _ _ _ 7 [] _ (fun _ => false) _ _ rfl⟩

/-- C5: the reconciliation delta is exactly the spec's: `toAdd` is the
satisfying set minus the members of any origin, `toRemove` is the members
of origin `policy` attributed solely to this policy, outside its
satisfying set and satisfying no other active policy on the collection;
hence a user satisfying another active policy targeting the same
collection keeps the membership. -/
theorem reconcile_delta_characterization (policies : List Policy) (provider : Provider)
    (population : List UserId) (p : Policy) (c : Nat) (sat : List UserId)
    (members : List MembershipRecord) (other : UserId → Bool) (store : Store) :
    (∀ u, u ∈ (reconcile p sat members other).toAdd ↔
        u ∈ sat ∧ ∀ r ∈ members, r.user ≠ u) ∧
    (∀ r, r ∈ (reconcile p sat members other).toRemove ↔
        r ∈ members ∧ r.origin = .policy p.pid ∧
        sat.contains r.user = false ∧ other r.user = false) ∧
    (∀ q u r, q ∈ policies → q.pid ≠ p.pid → q.active = true →
        q.targets.contains c = true → evalUser q.expr provider u = true →
        r.user = u →
        r ∉ (reconcile p sat members (satOther policies provider p c)).toRemove ∧
        (r ∈ store → r ∈ (doPass policies provider population p c store).store)) := by
  refine ⟨?_, ?_, ?_⟩
  · intro u
    simp only [reconcile, List.mem_filter, Bool.not_eq_true', List.any_eq_false, beq_iff_eq]
  · intro r
    rcases r with ⟨ru, rc, ro⟩
    cases ro with
    | manual => simp [reconcile, List.mem_filter, removePred]
    | policy pid =>
        simp only [reconcile, List.mem_filter, removePred, Bool.and_eq_true, beq_iff_eq,
          Bool.not_eq_true', Origin.policy.injEq]
        tauto
  · intro q u r hq hne hact htgt heval hru
    have htgt' : c ∈ q.targets := List.elem_iff.mp htgt
    have hother : satOther policies provider p c r.user = true := by
      refine List.any_eq_true.mpr ⟨q, hq, ?_⟩
      simp [hne, hact, htgt', hru, heval]
    have hpred : removePred p (satList provider population p)
        (satOther policies provider p c) r = false := by
      unfold removePred
      cases horig : r.origin with
      | manual => rfl
      | policy pid => simp [hother]
    constructor
    · intro hmem
      have h2 := (List.mem_filter.mp hmem).2
      have hpred' : removePred p sat (satOther policies provider p c) r = false := by
        unfold removePred
        cases horig : r.origin with
        | manual => rfl
        | policy pid => simp [hother]
      rw [hpred'] at h2
      exact Bool.noConfusion h2
    · intro hr
      by_cases hs : p.autoSync = true
      · simp only [doPass, if_pos hs]
        refine List.mem_append_left _ (List.mem_filter.mpr ⟨hr, ?_⟩)
        simp [keepPred, hpred]
      · simp [doPass, hs, hr]

/-- Witness for C5: policy 1 (`Dept == "Engineering"`) and policy 2
(`Office == "Remote"`) both target collection 7; user 1 satisfies policy 1
and is added; user 5 is attributed solely to policy 1, no longer satisfies
it, but satisfies policy 2 — and keeps the membership. -/
theorem reconcile_delta_characterization_witness :
    (1 : UserId) ∈ (reconcile (Policy.mk 1 (.eq "Dept" "Engineering") [7] true true) [1]
        [MembershipRecord.mk 5 7 (.policy 1)]
        (satOther [Policy.mk 1 (.eq "Dept" "Engineering") [7] true true,
                   Policy.mk 2 (.eq "Office" "Remote") [7] true true]
          (fun u : UserId => if u == 1 then .ok [("Dept", Value.scalar "Engineering")]
            else .ok [("Office", Value.scalar "Remote")])
          (Policy.mk 1 (.eq "Dept" "Engineering") [7] true true) 7)).toAdd ∧
    (MembershipRecord.mk 5 7 (.policy 1)) ∉
      (reconcile (Policy.mk 1 (.eq "Dept" "Engineering") [7] true true) [1]
        [MembershipRecord.mk 5 7 (.policy 1)]
        (satOther [Policy.mk 1 (.eq "Dept" "Engineering") [7] true true,
                   Policy.mk 2 (.eq "Office" "Remote") [7] true true]
          (fun u : UserId => if u == 1 then .ok [("Dept", Value.scalar "Engineering")]
            else .ok [("Office", Value.scalar "Remote")])
          (Policy.mk 1 (.eq "Dept" "Engineering") [7] true true) 7)).toRemove :=
  ⟨((reconcile_delta_characterization
      [Policy.mk 1 (.eq "Dept" "Engineering") [7] true true,
       Policy.mk 2 (.eq "Office" "Remote") [7] true true]
      (fun u : UserId => if u == 1 then .ok [("Dept", Value.scalar "Engineering")]
        else .ok [("Office", Value.scalar "Remote")]) [1, 5]
      (Policy.mk 1 (.eq "Dept" "Engineering") [7] true true) 7 [1]
      [MembershipRecord.mk 5 7 (.policy 1)] _ []).1 1).mpr ⟨by decide, by decide⟩,
   ((reconcile_delta_characterization
      [Policy.mk 1 (.eq "Dept" "Engineering") [7] true true,
       Policy.mk 2 (.eq "Office" "Remote") [7] true true]
      (fun u : UserId => if u == 1 then .ok [("Dept", Value.scalar "Engineering")]
        else .ok [("Office", Value.scalar "Remote")]) [1, 5]
      (Policy.mk 1 (.eq "Dept" "Engineering") [7] true true) 7 [1]
      [MembershipRecord.mk 5 7 (.policy 1)]
      (satOther [Policy.mk 1 (.eq "Dept" "Engineering") [7] true true,
                 Policy.mk 2 (.eq "Office" "Remote") [7] true true]
        (fun u : UserId => if u == 1 then .ok [("Dept", Value.scalar "Engineering")]
          else .ok [("Office", Value.scalar "Remote")])
        (Policy.mk 1 (.eq "Dept" "Engineering") [7] true true) 7) []).2.2
      (Policy.mk 2 (.eq "Office" "Remote") [7] true true) 5
      (MembershipRecord.mk 5 7 (.policy 1))
      (by decide) (by decide) rfl (by decide) (by decide) rfl).1⟩

/-- C3: with the membership synced for policy `p` (every record attributed
to `p` still satisfies `p` or another active policy), relaxing the
satisfying set yields an empty `toRemove` — only additions; and against
any edited satisfying set, removals touch only users outside it and
additions only users inside it. -/
theorem relaxation_monotonicity (p : Policy) (satP satP' satR : List UserId)
    (members : List MembershipRecord) (other : UserId → Bool)
    (hstable : ∀ r ∈ members, r.origin = .policy p.pid →
        satP.contains r.user = true ∨ other r.user = true)
    (hsub : ∀ u ∈ satP, u ∈ satP') :
    (reconcile p satP' members other).toRemove = [] ∧
    (∀ r ∈ (reconcile p satR members other).toRemove, satR.contains r.user = false) ∧
    (∀ u ∈ (reconcile p satR members other).toAdd, u ∈ satR) := by
  refine ⟨?_, ?_, ?_⟩
  · refine List.filter_eq_nil_iff.mpr ?_
    intro r hr hpred
    rcases r with ⟨ru, rc, ro⟩
    cases ro with
    | manual => simp [removePred] at hpred
    | policy pid =>
        simp only [removePred] at hpred
        rw [Bool.and_eq_true, Bool.and_eq_true, beq_iff_eq,
          Bool.not_eq_true', Bool.not_eq_true'] at hpred
        obtain ⟨⟨hpid, hcon⟩, hoth⟩ := hpred
        subst hpid
        rcases hstable _ hr rfl with hin | hin
        · have hmemP : ru ∈ satP := List.elem_iff.mp hin
          have hconP' : satP'.contains ru = true := List.elem_iff.mpr (hsub _ hmemP)
          rw [hconP'] at hcon
          exact Bool.noConfusion hcon
        · rw [hin] at hoth
          exact Bool.noConfusion hoth
  · intro r hmem
    have h2 := (List.mem_filter.mp hmem).2
    rcases r with ⟨ru, rc, ro⟩
    cases ro with
    | manual => simp [removePred] at h2
    | policy pid =>
        simp only [removePred, Bool.and_eq_true, Bool.not_eq_true'] at h2
        exact h2.1.2
  · intro u hmem
    exact (List.mem_filter.mp hmem).1

/-- Witness for C3: user 1 is a member attributed to policy 1 and satisfies
it; relaxing the satisfying set from `[1]` to `[1, 2]` removes nobody, and
restricting to `[]` removes only non-matching users. -/
theorem relaxation_monotonicity_witness :
    ((∀ r ∈ [MembershipRecord.mk 1 7 (.policy 1)],
        r.origin = .policy (Policy.mk 1 (.eq "Dept" "Engineering") [7] true true).pid →
        ([1] : List UserId).contains r.user = true ∨ (fun _ => false) r.user = true) ∧
     (∀ u ∈ ([1] : List UserId), u ∈ ([1, 2] : List UserId))) ∧
    ((reconcile (Policy.mk 1 (.eq "Dept" "Engineering") [7] true true) [1, 2]
        [MembershipRecord.mk 1 7 (.policy 1)] (fun _ => false)).toRemove = [] ∧
     (∀ r ∈ (reconcile (Policy.mk 1 (.eq "Dept" "Engineering") [7] true true) []
        [MembershipRecord.mk 1 7 (.policy 1)] (fun _ => false)).toRemove,
        ([] : List UserId).contains r.user = false) ∧
     (∀ u ∈ (reconcile (Policy.mk 1 (.eq "Dept" "Engineering") [7] true true) []
        [MembershipRecord.mk 1 7 (.policy 1)] (fun _ => false)).toAdd,
        u ∈ ([] : List UserId))) :=
  ⟨⟨by decide, by decide⟩,
   relaxation_monotonicity _ [1] [1, 2] [] _ (fun _ => false) (by decide) (by decide)⟩

/-- Membership in an appended store, componentwise. -/
theorem isMember_append (s t : Store) (c : Nat) (u : UserId) :
    isMember (s ++ t) c u = (isMember s c u || isMember t c u) := by
  simp [isMember, List.any_append]

/-- A record of the right collection and user witnesses membership. -/
theorem isMember_of_record (store : Store) (c : Nat) (u : UserId)
    (r : MembershipRecord) (hr : r ∈ store) (hc : r.coll = c) (hu : r.user = u) :
    isMember store c u = true :=
  List.any_eq_true.mpr ⟨r, hr, by simp [hc, hu]⟩

/-- Membership yields a witnessing record. -/
theorem record_of_isMember (store : Store) (c : Nat) (u : UserId)
    (h : isMember store c u = true) :
    ∃ r ∈ store, r.coll = c ∧ r.user = u := by
  obtain ⟨r, hr, hcr⟩ := List.any_eq_true.mp h
  rw [Bool.and_eq_true] at hcr
  exact ⟨r, hr, beq_iff_eq.mp hcr.1, beq_iff_eq.mp hcr.2⟩

/-- A user of the satisfying set evaluates to true under the provider. -/
theorem evalUser_of_mem_satList (provider : Provider) (population : List UserId)
    (p : Policy) (u : UserId) (h : u ∈ satList provider population p) :
    evalUser p.expr provider u = true := by
  rw [satList, resolve_eq] at h
  exact (List.mem_filter.mp h).2

/-- The store produced by an autoSync pass: the kept records followed by
the added ones. -/
theorem pass_store_eq (policies : List Policy) (provider : Provider)
    (population : List UserId) (q : Policy) (c' : Nat) (store : Store)
    (hsync : q.autoSync = true) :
    (doPass policies provider population q c' store).store =
      store.filter (keepPred q (satList provider population q)
          (satOther policies provider q c') c') ++
        ((satList provider population q).filter
          (fun u => !(membersOf store c').any (fun r => r.user == u))).map
          (fun u => MembershipRecord.mk u c' (.policy q.pid)) := by
  simp [doPass, hsync, reconcile]

/-- A pass on a stable store computes an empty delta and leaves the store
untouched. -/
theorem pass_stable_noop (policies : List Policy) (provider : Provider)
    (population : List UserId) (p : Policy) (c : Nat) (store : Store)
    (hsync : p.autoSync = true)
    (hst : Stable p c (satList provider population p)
      (satOther policies provider p c) store) :
    doPass policies provider population p c store = ⟨⟨[], []⟩, store⟩ := by
  obtain ⟨hA, hB⟩ := hst
  have htoAdd : (satList provider population p).filter
      (fun u => !(membersOf store c).any (fun r => r.user == u)) = [] := by
    refine List.filter_eq_nil_iff.mpr ?_
    intro u hu
    obtain ⟨r, hr, hrc, hru⟩ := record_of_isMember store c u (hA u hu)
    have : (membersOf store c).any (fun r => r.user == u) = true :=
      List.any_eq_true.mpr ⟨r, List.mem_filter.mpr ⟨hr, beq_iff_eq.mpr hrc⟩,
        beq_iff_eq.mpr hru⟩
    simp [this]
  have htoRem : (membersOf store c).filter
      (removePred p (satList provider population p)
        (satOther policies provider p c)) = [] := by
    refine List.filter_eq_nil_iff.mpr ?_
    intro r hr hpred
    have hr' := List.mem_filter.mp hr
    rw [hB r hr'.1 (beq_iff_eq.mp hr'.2)] at hpred
    exact Bool.noConfusion hpred
  have hkeep : store.filter (keepPred p (satList provider population p)
      (satOther policies provider p c) c) = store := by
    refine List.filter_eq_self.mpr ?_
    intro r hr
    unfold keepPred
    by_cases hc : r.coll = c
    · rw [hB r hr hc]
      simp
    · simp [beq_eq_false_iff_ne.mpr hc]
  simp only [doPass, if_pos hsync, reconcile]
  rw [htoAdd, htoRem, hkeep]
  simp

/-- An autoSync pass leaves its own policy+collection pair stable. -/
theorem pass_establishes_stable (policies : List Policy) (provider : Provider)
    (population : List UserId) (p : Policy) (c : Nat) (store : Store)
    (hsync : p.autoSync = true) :
    Stable p c (satList provider population p) (satOther policies provider p c)
      (doPass policies provider population p c store).store := by
  rw [pass_store_eq policies provider population p c store hsync]
  constructor
  · intro u hu
    rw [isMember_append]
    by_cases hm : isMember store c u = true
    · obtain ⟨r, hr, hrc, hru⟩ := record_of_isMember store c u hm
      have hkeepr : keepPred p (satList provider population p)
          (satOther policies provider p c) c r = true := by
        unfold keepPred removePred
        cases horig : r.origin with
        | manual => simp
        | policy pid =>
            have hmem : r.user ∈ satList provider population p := hru ▸ hu
            simp [hmem]
      have : isMember (store.filter (keepPred p (satList provider population p)
          (satOther policies provider p c) c)) c u = true :=
        isMember_of_record _ c u r (List.mem_filter.mpr ⟨hr, hkeepr⟩) hrc hru
      simp [this]
    · have hnot : (membersOf store c).any (fun r => r.user == u) = false := by
        rw [Bool.eq_false_iff]
        intro hany
        obtain ⟨r, hr, hru⟩ := List.any_eq_true.mp hany
        have hr' := List.mem_filter.mp hr
        exact hm (isMember_of_record store c u r hr'.1 (beq_iff_eq.mp hr'.2)
          (beq_iff_eq.mp hru))
      have hadd : (MembershipRecord.mk u c (.policy p.pid)) ∈
          ((satList provider population p).filter
            (fun u => !(membersOf store c).any (fun r => r.user == u))).map
            (fun u => MembershipRecord.mk u c (.policy p.pid)) :=
        List.mem_map.mpr ⟨u, List.mem_filter.mpr ⟨hu, by simp [hnot]⟩, rfl⟩
      have : isMember (((satList provider population p).filter
          (fun u => !(membersOf store c).any (fun r => r.user == u))).map
            (fun u => MembershipRecord.mk u c (.policy p.pid))) c u = true :=
        isMember_of_record _ c u _ hadd rfl rfl
      simp [this]
  · intro r hr hc
    rcases List.mem_append.mp hr with hkept | hadded
    · have h1 := List.mem_filter.mp hkept
      have h2 := h1.2
      unfold keepPred at h2
      rw [Bool.not_eq_true'] at h2
      rw [beq_iff_eq.mpr hc] at h2
      simpa using h2
    · obtain ⟨u, hu, heq⟩ := List.mem_map.mp hadded
      have husat : u ∈ satList provider population p := (List.mem_filter.mp hu).1
      subst heq
      unfold removePred
      simp [husat]

/-- A pass for a different pair (different policy id or different
collection) preserves the stability of `(p, c)`: the preserved pair's
satisfying users stay members (any record justifying them either is kept,
or the user satisfies `p` as "another active policy" of the passing one),
and no removable-for-`p` record appears. -/
theorem pass_preserves_stable (policies : List Policy) (provider : Provider)
    (population : List UserId) (p : Policy) (c : Nat) (q : Policy) (c' : Nat)
    (store : Store)
    (hp_mem : p ∈ policies) (hp_act : p.active = true) (hp_tgt : c ∈ p.targets)
    (hpq : q = p ∨ q.pid ≠ p.pid)
    (hst : Stable p c (satList provider population p)
      (satOther policies provider p c) store) :
    Stable p c (satList provider population p) (satOther policies provider p c)
      (doPass policies provider population q c' store).store := by
  by_cases hsync : q.autoSync = true
  case neg =>
    have : (doPass policies provider population q c' store).store = store := by
      simp [doPass, hsync]
    rw [this]
    exact hst
  case pos =>
  by_cases hcc : c' = c
  · subst hcc
    rcases hpq with rfl | hne
    · rw [pass_stable_noop policies provider population q c' store hsync hst]
      exact hst
    · obtain ⟨hA, hB⟩ := hst
      rw [pass_store_eq policies provider population q c' store hsync]
      constructor
      · intro u hu
        obtain ⟨r, hr, hrc, hru⟩ := record_of_isMember store c' u (hA u hu)
        have heval : evalUser p.expr provider u = true :=
          evalUser_of_mem_satList provider population p u hu
        have hothq : satOther policies provider q c' r.user = true := by
          refine List.any_eq_true.mpr ⟨p, hp_mem, ?_⟩
          simp [hru, Ne.symm hne, hp_act, hp_tgt, heval]
        have hkeepr : keepPred q (satList provider population q)
            (satOther policies provider q c') c' r = true := by
          unfold keepPred removePred
          cases horig : r.origin with
          | manual => simp
          | policy pid => simp [hothq]
        rw [isMember_append]
        have : isMember (store.filter (keepPred q (satList provider population q)
            (satOther policies provider q c') c')) c' u = true :=
          isMember_of_record _ c' u r (List.mem_filter.mpr ⟨hr, hkeepr⟩) hrc hru
        simp [this]
      · intro r hr hc2
        rcases List.mem_append.mp hr with hkept | hadded
        · exact hB r (List.mem_filter.mp hkept).1 hc2
        · obtain ⟨u, hu, heq⟩ := List.mem_map.mp hadded
          subst heq
          unfold removePred
          simp [beq_eq_false_iff_ne.mpr hne]
  · obtain ⟨hA, hB⟩ := hst
    rw [pass_store_eq policies provider population q c' store hsync]
    constructor
    · intro u hu
      obtain ⟨r, hr, hrc, hru⟩ := record_of_isMember store c u (hA u hu)
      have hkeepr : keepPred q (satList provider population q)
          (satOther policies provider q c') c' r = true := by
        unfold keepPred
        have : (r.coll == c') = false :=
          beq_eq_false_iff_ne.mpr (by rw [hrc]; exact fun h => hcc h.symm)
        simp [this]
      rw [isMember_append]
      have : isMember (store.filter (keepPred q (satList provider population q)
          (satOther policies provider q c') c')) c u = true :=
        isMember_of_record _ c u r (List.mem_filter.mpr ⟨hr, hkeepr⟩) hrc hru
      simp [this]
    · intro r hr hc2
      rcases List.mem_append.mp hr with hkept | hadded
      · exact hB r (List.mem_filter.mp hkept).1 hc2
      · obtain ⟨u, hu, heq⟩ := List.mem_map.mp hadded
        subst heq
        exact absurd hc2 (by simp [hcc])

/-- Running a list of passes of policies from the policy list preserves the
stability of an active targeted pair, given injective policy ids. -/
theorem runPairs_preserves_stable (policies : List Policy) (provider : Provider)
    (population : List UserId) (p : Policy) (c : Nat)
    (hp_mem : p ∈ policies) (hp_act : p.active = true) (hp_tgt : c ∈ p.targets)
    (hinj : ∀ x ∈ policies, ∀ y ∈ policies, x.pid = y.pid → x = y) :
    ∀ (pairs : List (Policy × Nat)) (store : Store),
      (∀ pc ∈ pairs, pc.1 ∈ policies) →
      Stable p c (satList provider population p)
        (satOther policies provider p c) store →
      Stable p c (satList provider population p) (satOther policies provider p c)
        (runPairs policies provider population pairs store).1 := by
  intro pairs
  induction pairs with
  | nil => intro store _ hst; exact hst
  | cons pc rest ih =>
      intro store hWF hst
      obtain ⟨q, c'⟩ := pc
      have hq_mem : q ∈ policies := hWF _ (List.mem_cons_self _ _)
      have hpq : q = p ∨ q.pid ≠ p.pid := by
        by_cases h : q.pid = p.pid
        · exact Or.inl (hinj q hq_mem p hp_mem h)
        · exact Or.inr h
      have hst' := pass_preserves_stable policies provider population p c q c'
        store hp_mem hp_act hp_tgt hpq hst
      simp only [runPairs]
      exact ih _ (fun pc h => hWF pc (List.mem_cons_of_mem _ h)) hst'

/-- After running a well-formed list of passes, every processed pair is
stable in the final store. -/
theorem runPairs_establishes_all (policies : List Policy) (provider : Provider)
    (population : List UserId)
    (hinj : ∀ x ∈ policies, ∀ y ∈ policies, x.pid = y.pid → x = y) :
    ∀ (pairs : List (Policy × Nat)) (store : Store), pairsWF policies pairs →
      ∀ pc ∈ pairs, Stable pc.1 pc.2 (satList provider population pc.1)
        (satOther policies provider pc.1 pc.2)
        (runPairs policies provider population pairs store).1 := by
  intro pairs
  induction pairs with
  | nil => intro store _ pc hpc; exact absurd hpc (List.not_mem_nil _)
  | cons hd rest ih =>
      intro store hWF pc hpc
      obtain ⟨q, c'⟩ := hd
      have hhd := hWF (q, c') (List.mem_cons_self _ _)
      simp only [runPairs]
      rcases List.mem_cons.mp hpc with rfl | htl
      · have h1 : Stable q c' (satList provider population q)
            (satOther policies provider q c')
            (doPass policies provider population q c' store).store :=
          pass_establishes_stable policies provider population q c' store hhd.2.2.1
        exact runPairs_preserves_stable policies provider population q c'
          hhd.1 hhd.2.1 hhd.2.2.2 hinj rest _
          (fun pc h => (hWF pc (List.mem_cons_of_mem _ h)).1) h1
      · exact ih _ (fun pc h => hWF pc (List.mem_cons_of_mem _ h)) pc htl

/-- Running a well-formed list of passes over a store in which every pair
is already stable mutates nothing and counts zero everywhere. -/
theorem runPairs_noop (policies : List Policy) (provider : Provider)
    (population : List UserId) :
    ∀ (pairs : List (Policy × Nat)) (store : Store), pairsWF policies pairs →
      (∀ pc ∈ pairs, Stable pc.1 pc.2 (satList provider population pc.1)
        (satOther policies provider pc.1 pc.2) store) →
      (runPairs policies provider population pairs store).1 = store ∧
      ∀ it ∈ (runPairs policies provider population pairs store).2,
        it.added = 0 ∧ it.removed = 0 := by
  intro pairs
  induction pairs with
  | nil => intro store _ _; exact ⟨rfl, fun it h => absurd h (List.not_mem_nil _)⟩
  | cons hd rest ih =>
      intro store hWF hall
      obtain ⟨q, c'⟩ := hd
      have hhd := hWF _ (List.mem_cons_self _ _)
      have hstq := hall _ (List.mem_cons_self _ _)
      have hpass := pass_stable_noop policies provider population q c' store
        hhd.2.2.1 hstq
      have ihr := ih store (fun pc h => hWF pc (List.mem_cons_of_mem _ h))
        (fun pc h => hall pc (List.mem_cons_of_mem _ h))
      simp only [runPairs, hpass]
      refine ⟨ihr.1, ?_⟩
      intro it hit
      rcases List.mem_cons.mp hit with rfl | h
      · exact ⟨rfl, rfl⟩
      · exact ihr.2 it h

/-- `syncPairs` produces only well-formed pairs. -/
theorem syncPairs_WF (policies : List Policy) : pairsWF policies (syncPairs policies) := by
  intro pc hpc
  simp only [syncPairs, List.mem_flatMap, List.mem_filter, List.mem_map] at hpc
  obtain ⟨p, ⟨hp_mem, hflags⟩, c, hc, heq⟩ := hpc
  rw [Bool.and_eq_true] at hflags
  subst heq
  exact ⟨hp_mem, hflags.1, hflags.2, hc⟩

/-- Distinct policy ids make the id projection injective on the list. -/
theorem pid_injective (policies : List Policy)
    (h : (policies.map (fun p => p.pid)).Nodup) :
    ∀ x ∈ policies, ∀ y ∈ policies, x.pid = y.pid → x = y :=
  fun _ hx _ hy hxy => List.inj_on_of_nodup_map h hx hy hxy

/-- C2: `runSync` is idempotent — with no intervening attribute or policy
change, a second run directly after a first one leaves the store untouched
and reports zero additions and zero removals on every processed
policy+collection pair (ids are unique per the data model's immutable
policy identity). -/
theorem runSync_idempotent (policies : List Policy) (provider : Provider)
    (population : List UserId) (store : Store)
    (hnodup : (policies.map (fun p => p.pid)).Nodup) :
    (runSync policies provider population
        (runSync policies provider population store).1).1 =
      (runSync policies provider population store).1 ∧
    ∀ it ∈ (runSync policies provider population
        (runSync policies provider population store).1).2,
      it.added = 0 ∧ it.removed = 0 := by
  have hinj := pid_injective policies hnodup
  have hWF := syncPairs_WF policies
  have hall := runPairs_establishes_all policies provider population hinj
    (syncPairs policies) store hWF
  exact runPairs_noop policies provider population (syncPairs policies) _ hWF hall

/-- Witness for C2: one active autoSync policy (`Dept == "Engineering"`)
targeting collection 7 over users 1 and 2 starting from the empty store;
the second run mutates nothing and counts zero. -/
theorem runSync_idempotent_witness :
    (([Policy.mk 1 (.eq "Dept" "Engineering") [7] true true].map
        (fun p => p.pid)).Nodup) ∧
    ((runSync [Policy.mk 1 (.eq "Dept" "Engineering") [7] true true]
        (fun u : UserId => if u == 1 then .ok [("Dept", Value.scalar "Engineering")]
          else .ok [("Dept", Value.scalar "Sales")]) [1, 2]
        (runSync [Policy.mk 1 (.eq "Dept" "Engineering") [7] true true]
          (fun u : UserId => if u == 1 then .ok [("Dept", Value.scalar "Engineering")]
            else .ok [("Dept", Value.scalar "Sales")]) [1, 2] []).1).1 =
      (runSync [Policy.mk 1 (.eq "Dept" "Engineering") [7] true true]
        (fun u : UserId => if u == 1 then .ok [("Dept", Value.scalar "Engineering")]
          else .ok [("Dept", Value.scalar "Sales")]) [1, 2] []).1 ∧
     ∀ it ∈ (runSync [Policy.mk 1 (.eq "Dept" "Engineering") [7] true true]
        (fun u : UserId => if u == 1 then .ok [("Dept", Value.scalar "Engineering")]
          else .ok [("Dept", Value.scalar "Sales")]) [1, 2]
        (runSync [Policy.mk 1 (.eq "Dept" "Engineering") [7] true true]
          (fun u : UserId => if u == 1 then .ok [("Dept", Value.scalar "Engineering")]
            else .ok [("Dept", Value.scalar "Sales")]) [1, 2] []).1).2,
       it.added = 0 ∧ it.removed = 0) :=
  ⟨by decide,
   runSync_idempotent [Policy.mk 1 (.eq "Dept" "Engineering") [7] true true]
     (fun u : UserId => if u == 1 then .ok [("Dept", Value.scalar "Engineering")]
       else .ok [("Dept", Value.scalar "Sales")]) [1, 2] [] (by decide)⟩

end Abac
